import Mathlib

/-!
Shallow embedding of the DuneNet API server post-processing core
(`src/api_server/main.py`) and verification of its specification.

Modelling conventions:
* A `ClassMask` (numpy `uint8` array of shape `h × w`) is a total function
  `ℕ → ℕ → ℕ` together with explicit dimensions `h w : ℕ`; only indices
  `i < h`, `j < w` are ever read by the embedded operations.
* numpy float arithmetic that is exact at the inputs a theorem uses is
  modelled over `ℚ`; the one place where float64 rounding is visible in
  integer outputs (`int(h * 0.35)`) is modelled bit-faithfully.
* Python's `"{x:.1f}%"` formatting is modelled as round-half-to-even of
  `10 * x` over `ℚ` followed by decimal printing.
-/

namespace DuneNet

/-- An RGB color, one byte per channel (`CLASS_COLORS` rows, `TRAV_COLORS`
values and all rasters hold values in `[0, 256)`). -/
structure RGB where
  r : ℕ
  g : ℕ
  b : ℕ
deriving DecidableEq, Repr

/-- `NUM_CLASSES = 10` from main.py. -/
def NUM_CLASSES : ℕ := 10

/-- `CLASS_NAMES` from main.py. -/
def CLASS_NAMES : List String :=
  ["Trees", "Lush Bushes", "Dry Grass", "Dry Bushes", "Ground Clutter",
   "Flowers", "Logs", "Rocks", "Landscape", "Sky"]

/-- `CLASS_COLORS` from main.py (one row per class id). -/
def CLASS_COLORS : List RGB :=
  [⟨34, 139, 34⟩,    -- Trees
   ⟨0, 255, 127⟩,    -- Lush Bushes
   ⟨189, 183, 107⟩,  -- Dry Grass
   ⟨139, 119, 101⟩,  -- Dry Bushes
   ⟨160, 82, 45⟩,    -- Ground Clutter
   ⟨255, 105, 180⟩,  -- Flowers
   ⟨139, 69, 19⟩,    -- Logs
   ⟨128, 128, 128⟩,  -- Rocks
   ⟨210, 180, 140⟩,  -- Landscape
   ⟨135, 206, 235⟩]  -- Sky

/-- The four traversability categories (the string values of the
`TRAVERSABILITY` dict in main.py). -/
inductive Cat where
  | go
  | caution
  | no_go
  | sky
deriving DecidableEq, Repr

/-- The `TRAVERSABILITY` dict from main.py: class id → category,
as the (key, value) item list in insertion order. -/
def TRAVERSABILITY : List (ℕ × Cat) :=
  [(0, .no_go),    -- Trees
   (1, .no_go),    -- Lush Bushes
   (2, .go),       -- Dry Grass
   (3, .caution),  -- Dry Bushes
   (4, .caution),  -- Ground Clutter
   (5, .go),       -- Flowers
   (6, .no_go),    -- Logs
   (7, .caution),  -- Rocks
   (8, .go),       -- Landscape
   (9, .sky)]      -- Sky

/-- `TRAV_COLORS` from main.py. -/
def TRAV_COLORS : Cat → RGB
  | .go => ⟨0, 200, 0⟩
  | .caution => ⟨255, 180, 0⟩
  | .no_go => ⟨220, 30, 30⟩
  | .sky => ⟨180, 210, 240⟩

/-- `_TRAV_LUT = np.array([10, 10, 0, 5, 5, 0, 10, 5, 0, -1], dtype=np.int8)`
from main.py: class id → cost (`-1` marks sky, replaced by `0` later). -/
def _TRAV_LUT : List ℤ := [10, 10, 0, 5, 5, 0, 10, 5, 0, -1]

/-- A class mask: pixel `(i, j)` (row `i`, column `j`) holds a class id.
Dimensions are carried separately; entries at `i < h`, `j < w` are the
array contents. -/
def Mask : Type := ℕ → ℕ → ℕ

/-- `colorize_mask` from main.py, per pixel.  The source builds an
all-zeros `h×w×3` array and then, for each `c in range(NUM_CLASSES)`,
assigns `CLASS_COLORS[c]` to every pixel whose class equals `c`; a pixel
whose id is outside `[0, NUM_CLASSES)` is matched by no pass and keeps
the initial black value `(0,0,0)`, which is exactly `List.getD` with
default `⟨0,0,0⟩` on the ten-element color table. -/
def colorize_mask (mask : Mask) (i j : ℕ) : RGB :=
  CLASS_COLORS.getD (mask i j) ⟨0, 0, 0⟩

/-- `float → uint8` conversion (`astype(np.uint8)` in main.py): C-style
truncation toward zero followed by byte wraparound.  All values this
embedding converts are `≥ 0`, so truncation is `Rat.floor`. -/
def byteOfRat (q : ℚ) : ℕ := (⌊q⌋).toNat % 256

/-- The per-channel linear blend `image*(1-alpha) + colored*alpha` of
`create_overlay` in main.py, modelled exactly over `ℚ` (float32
arithmetic is exact on the byte inputs and the alphas the theorems
below evaluate it at). -/
def blendChannel (imgv colv : ℕ) (alpha : ℚ) : ℚ :=
  (imgv : ℚ) * (1 - alpha) + (colv : ℚ) * alpha

/-- `create_overlay` from main.py, per pixel: blend the original image
with the colorized mask, then convert via `astype(np.uint8)`. -/
def create_overlay (image : ℕ → ℕ → RGB) (mask : Mask) (alpha : ℚ)
    (i j : ℕ) : RGB :=
  let colored := colorize_mask mask i j
  ⟨byteOfRat (blendChannel (image i j).r colored.r alpha),
   byteOfRat (blendChannel (image i j).g colored.g alpha),
   byteOfRat (blendChannel (image i j).b colored.b alpha)⟩

/-- Modelled from the spec (§4.3): the overlay as the spec words it —
per-pixel `round(image*(1-alpha) + raster*alpha)` clamped to byte
range.  Used only to compare against `create_overlay`. -/
def specRoundByte (q : ℚ) : ℕ := (max 0 (min 255 (round q))).toNat

/-- Modelled from the spec (§4.3): spec-worded overlay, for comparison
with the source's `create_overlay`. -/
def spec_overlay (image : ℕ → ℕ → RGB) (mask : Mask) (alpha : ℚ)
    (i j : ℕ) : RGB :=
  let colored := colorize_mask mask i j
  ⟨specRoundByte (blendChannel (image i j).r colored.r alpha),
   specRoundByte (blendChannel (image i j).g colored.g alpha),
   specRoundByte (blendChannel (image i j).b colored.b alpha)⟩

/-- `(class_mask == c).sum()` on an `h × w` mask: the number of pixels
holding class id `c`. -/
def pixelCount (h w : ℕ) (mask : Mask) (c : ℕ) : ℕ :=
  ((Finset.range h) ×ˢ (Finset.range w)).filter
    (fun p => mask p.1 p.2 = c) |>.card

/-- Round half to even on `ℚ` (the rounding used by Python's `"%.1f"`
style formatting, applied here to exact rationals; the float64
intermediate of the source is correctly rounded and agrees with the
exact value at every input a theorem below evaluates). -/
def rhe (q : ℚ) : ℤ :=
  let f := ⌊q⌋
  let r := q - f
  if r < 1/2 then f
  else if 1/2 < r then f + 1
  else if f % 2 = 0 then f else f + 1

/-- Python `f"{x:.1f}%"` for `x ≥ 0`, given the already-rounded value
`t = rhe (10*x)` in tenths: decimal digits, a dot, the tenths digit,
and `%`. -/
def fmtTenths (t : ℤ) : String :=
  toString (t / 10) ++ "." ++ toString (t % 10) ++ "%"

/-- Python `f"{x:.1f}%"` on an exact rational `x ≥ 0`. -/
def fmt1 (x : ℚ) : String := fmtTenths (rhe (10 * x))

/-- The result dict of `calculate_traversability_stats`. -/
structure TravStats where
  safe : String
  caution : String
  blocked : String
deriving DecidableEq, Repr

/-- Sum of `(class_mask == class_id).sum()` over the `TRAVERSABILITY`
items whose category equals `cat` — the accumulation loop of
`calculate_traversability_stats`. -/
def catPixels (h w : ℕ) (mask : Mask) (cat : Cat) : ℕ :=
  (TRAVERSABILITY.filter (fun p => p.2 = cat)).foldl
    (fun acc p => acc + pixelCount h w mask p.1) 0

/-- `calculate_traversability_stats` from main.py: percentages of go /
caution / no_go pixels over ground pixels (total minus Sky pixels);
if the denominator is zero it returns the literal strings `'0%'`. -/
def calculate_traversability_stats (h w : ℕ) (mask : Mask) : TravStats :=
  let total_pixels := h * w
  let sky_pixels := pixelCount h w mask 9
  let ground_pixels := total_pixels - sky_pixels
  if ground_pixels = 0 then ⟨"0%", "0%", "0%"⟩
  else
    ⟨fmt1 ((catPixels h w mask .go : ℚ) / ground_pixels * 100),
     fmt1 ((catPixels h w mask .caution : ℚ) / ground_pixels * 100),
     fmt1 ((catPixels h w mask .no_go : ℚ) / ground_pixels * 100)⟩

/-- The class-distribution computation shared by `predict` (loop over
`range(NUM_CLASSES)` keeping `count > 0`) and `predict_sim` (bincount
with `minlength=NUM_CLASSES`, comprehension keeping `counts[i] > 0`),
kept in numeric form: for each class id with a positive pixel count, the
class name paired with the rounded percentage in tenths of a percent. -/
def classDistTenths (h w : ℕ) (mask : Mask) : List (String × ℤ) :=
  (List.range NUM_CLASSES).filterMap (fun c =>
    let cnt := pixelCount h w mask c
    if 0 < cnt then
      some (CLASS_NAMES.getD c "",
            rhe ((1000 * cnt : ℚ) / (h * w)))
    else none)

/-- The class-distribution dict as built by both endpoints:
`{CLASS_NAMES[c]: f"{count/total*100:.1f}%"}` for every class with
`count > 0`, in class-id order. -/
def class_distribution (h w : ℕ) (mask : Mask) : List (String × String) :=
  (classDistTenths h w mask).map (fun p => (p.1, fmtTenths p.2))

/-- The float64 significand of the literal `0.35`:
`0.35` rounds to `3152519739159347 / 2^53`. -/
def M35 : ℕ := 3152519739159347

/-- Round `n / 2^s` to the nearest integer, ties to even (IEEE-754
round-to-nearest-even of a dyadic rational onto an integer grid). -/
def rneShift (n s : ℕ) : ℕ :=
  if s = 0 then n
  else
    let q := n / 2 ^ s
    let r := n % 2 ^ s
    let half := 2 ^ (s - 1)
    if r < half then q
    else if half < r then q + 1
    else if q % 2 = 0 then q else q + 1

/-- `ground_start = int(h * 0.35)` from `create_traversability_grid`,
modelled bit-faithfully: the exact product `h * (0.35 : float64)` is
`h * M35 / 2^53`; the float64 multiplication rounds its significand to
53 bits (round-to-nearest-even), and `int` truncates the result toward
zero.  This differs from `⌊7h/20⌋` for some heights (e.g. `h = 180`
gives `62`, not `63`). -/
def groundStart (h : ℕ) : ℕ :=
  let n := h * M35
  if n < 2 ^ 53 then 0
  else
    let s := Nat.log2 n + 1 - 53
    (rneShift n s * 2 ^ s) / 2 ^ 53

/-- The source index PIL's `Image.resize(..., Image.NEAREST)` samples
for destination index `j` when resizing an axis of `src` pixels to
`dst` pixels: `⌊(j + 0.5) · src / dst⌋`, i.e. the center-aligned
representative (Pillow's scale-affine transform evaluates
`(j + 0.5) * (src / dst)` in float64; at every input the theorems below
use, that computation is exact and equals this rational). -/
def srcIdx (src dst j : ℕ) : ℕ := ((2 * j + 1) * src) / (2 * dst)

/-- The class id of cell `(r, c)` of the nearest-neighbour reduction of
the retained ground sub-raster, as computed by
`create_traversability_grid`: slice rows `[ground_start, h)`, then
resize the `gh × w` slice to `rows × cols` with PIL `NEAREST`. -/
def gridClass (mask : Mask) (h w rows cols r c : ℕ) : ℕ :=
  let gs := groundStart h
  mask (gs + srcIdx (h - gs) rows r) (srcIdx w cols c)

/-- `_TRAV_LUT[cls]` (defined for `cls < NUM_CLASSES`; numpy raises
`IndexError` for larger ids, and every caller produces ids below
`NUM_CLASSES` from an argmax over `NUM_CLASSES` channels). -/
def travCost (cls : ℕ) : ℤ := _TRAV_LUT.getD cls 0

/-- `cost_grid[cost_grid < 0] = 0` from `create_traversability_grid`:
the sky marker `-1` is replaced by `0` (go) after the LUT lookup. -/
def cellCost (x : ℤ) : ℤ := if x < 0 then 0 else x

/-- The value of one cell of the traversability grid. -/
def gridEntry (mask : Mask) (h w rows cols r c : ℕ) : ℤ :=
  cellCost (travCost (gridClass mask h w rows cols r c))

/-- `create_traversability_grid` from main.py (`cost_grid.tolist()`):
the row-major `grid_rows × grid_cols` list of costs.  The reference
call sites use `grid_cols = 12`, `grid_rows = 8`. -/
def create_traversability_grid (mask : Mask) (h w : ℕ)
    (grid_cols grid_rows : ℕ) : List (List ℤ) :=
  (List.range grid_rows).map (fun r =>
    (List.range grid_cols).map (fun c =>
      gridEntry mask h w grid_rows grid_cols r c))

/-- Modelled from the spec (§4.5, claim C1): the top-left-aligned
representative pixel of cell `j` under proportional binning of `src`
pixels into `dst` cells, the last cell absorbing the integer-division
remainder: cell `j` starts at `j · ⌊src / dst⌋`. -/
def specTopLeftIdx (src dst j : ℕ) : ℕ := j * (src / dst)

/-- Modelled from the spec (claim C1): the class a cell would get from
the top-left-aligned representative pixel of the retained ground
sub-raster under proportional binning.  Used only for comparison with
`gridClass`. -/
def specTopLeftClass (mask : Mask) (h w rows cols r c : ℕ) : ℕ :=
  let gs := groundStart h
  mask (gs + specTopLeftIdx (h - gs) rows r) (specTopLeftIdx w cols c)

/-- Modelled from the spec's amended reading of §4.5 step 2 (claim C1):
the center-aligned representative pixel PIL `NEAREST` actually samples,
written the way the spec would word it — `⌊(j + 1/2) · src / dst⌋` over
exact rationals.  Used only for comparison with `srcIdx`. -/
def specCenterIdx (src dst j : ℕ) : ℕ :=
  (⌊(((j : ℚ) + 1/2) * src) / dst⌋).toNat

/-- Modelled from the spec's amended reading (claim C1): the class of a
cell's center-aligned representative pixel of the retained ground
sub-raster. -/
def specCenterClass (mask : Mask) (h w rows cols r c : ℕ) : ℕ :=
  let gs := groundStart h
  mask (gs + specCenterIdx (h - gs) rows r) (specCenterIdx w cols c)

/-- The Sky-over-NoGo scenario mask of claim C7: the top 40 % of rows
(`i < 2h/5`) hold the Sky class (id 9), the remaining rows a NoGo class
(id 0, Trees). -/
def skyNoGoMask (h : ℕ) : Mask := fun i _ => if i < 2 * h / 5 then 9 else 0

/-- The shape of a decoded upload: height, width and channel count of
the image PIL produced from the request bytes. -/
structure ImageData where
  height : ℕ
  width : ℕ
  channels : ℕ
deriving DecidableEq, Repr

/-- The request-ingestion prefix shared by `predict` and `predict_sim`
(`Image.open(io.BytesIO(contents)).convert('RGB')` followed by the
cached resize transform), on an abstract decoded image (`none` = the
bytes do not decode).  Undecodable bytes raise inside the handler's
`try` block and the catch-all turns any exception into
`HTTPException(status_code=500)`; `convert('RGB')` coerces any channel
count to 3 (no rejection); a zero-area array then makes the resize
transform raise, again caught as status 500.  There is no validation
before these steps. -/
def ingestImage (img : Option ImageData) : Except ℕ ImageData :=
  match img with
  | none => Except.error 500
  | some d =>
    let rgb : ImageData := ⟨d.height, d.width, 3⟩
    if rgb.height = 0 ∨ rgb.width = 0 then Except.error 500
    else Except.ok rgb

/-- A JSON value as used by the `predict_sim` response dict. -/
inductive JVal where
  | s (v : String)
  | q (v : ℚ)
  | grid (v : List (List ℤ))
  | smap (v : List (String × String))
deriving DecidableEq, Repr

/-- The response dict literal of `predict_sim` (main.py lines 459-470),
with the computed parts abstracted as arguments (the wall-clock
`inference_time_ms` is measured externally and passed through).  The
three image fields are hard-coded empty strings in the source
(“Empty strings for backward compat”). -/
def predict_sim_response (stats : TravStats) (grid : List (List ℤ))
    (dist : List (String × String)) (elapsed_ms : ℚ)
    (dominant : String) (conf : ℚ) : List (String × JVal) :=
  [("traversability_stats",
      JVal.smap [("safe", stats.safe), ("caution", stats.caution),
                 ("blocked", stats.blocked)]),
   ("traversability_grid", JVal.grid grid),
   ("class_distribution", JVal.smap dist),
   ("inference_time_ms", JVal.q elapsed_ms),
   ("dominant_class", JVal.s dominant),
   ("confidence", JVal.q conf),
   ("segmentation_mask", JVal.s ""),
   ("traversability_map", JVal.s ""),
   ("traversability_overlay", JVal.s "")]

/-- `i` is the index `np.argmax` returns on the vector `v`: it attains
the maximum, and no earlier index does (`np.argmax` returns the first
maximizing index). -/
def isFirstArgmax {n : ℕ} {α : Type*} [Preorder α]
    (v : Fin n → α) (i : Fin n) : Prop :=
  (∀ j, v j ≤ v i) ∧ ∀ j, v i ≤ v j → i ≤ j

/-- `torch.softmax` along the class axis at one pixel: per-class scores
(logits) `l`, probability `exp (l i) / Σ_j exp (l j)`.  Scores are
carried as rationals (the float values of the tensor), probabilities
live in `ℝ`. -/
noncomputable def softmax {n : ℕ} (l : Fin (n + 1) → ℚ)
    (i : Fin (n + 1)) : ℝ :=
  Real.exp (l i) / ∑ j, Real.exp (l j)

/-! ### Helper lemmas -/

lemma byteOfRat_eq_floor_toNat {q : ℚ} (h255 : q ≤ 255) :
    byteOfRat q = (⌊q⌋).toNat := by
  unfold byteOfRat
  apply Nat.mod_eq_of_lt
  have h1 : ⌊q⌋ ≤ 255 := by
    calc ⌊q⌋ ≤ ⌊(255 : ℚ)⌋ := Int.floor_le_floor h255
    _ = 255 := by norm_num
  omega

lemma byteOfRat_natCast (a : ℕ) (ha : a ≤ 255) : byteOfRat (a : ℚ) = a := by
  unfold byteOfRat
  rw [Int.floor_natCast]
  simp only [Int.toNat_natCast]
  exact Nat.mod_eq_of_lt (by omega)

lemma colorize_byte (k : ℕ) :
    (CLASS_COLORS.getD k ⟨0, 0, 0⟩).r ≤ 255 ∧
    (CLASS_COLORS.getD k ⟨0, 0, 0⟩).g ≤ 255 ∧
    (CLASS_COLORS.getD k ⟨0, 0, 0⟩).b ≤ 255 := by
  by_cases hk : k < 10
  · interval_cases k <;> decide
  · rw [List.getD_eq_default]
    · exact ⟨by norm_num, by norm_num, by norm_num⟩
    · simp only [CLASS_COLORS, List.length]
      omega

lemma blend_nonneg {a b : ℕ} {α : ℚ} (h0 : 0 ≤ α) (h1 : α ≤ 1) :
    0 ≤ blendChannel a b α := by
  unfold blendChannel
  have hα : (0 : ℚ) ≤ 1 - α := by linarith
  have ha : (0 : ℚ) ≤ (a : ℚ) := Nat.cast_nonneg a
  have hb : (0 : ℚ) ≤ (b : ℚ) := Nat.cast_nonneg b
  nlinarith

lemma blend_le_255 {a b : ℕ} {α : ℚ} (h0 : 0 ≤ α) (h1 : α ≤ 1)
    (ha : a ≤ 255) (hb : b ≤ 255) : blendChannel a b α ≤ 255 := by
  unfold blendChannel
  have haq : (a : ℚ) ≤ 255 := by exact_mod_cast ha
  have hbq : (b : ℚ) ≤ 255 := by exact_mod_cast hb
  have h1' : (0 : ℚ) ≤ 1 - α := by linarith
  have t1 : (a : ℚ) * (1 - α) ≤ 255 * (1 - α) :=
    mul_le_mul_of_nonneg_right haq h1'
  have t2 : (b : ℚ) * α ≤ 255 * α := mul_le_mul_of_nonneg_right hbq h0
  linarith

lemma blendChannel_zero (a b : ℕ) : blendChannel a b 0 = a := by
  unfold blendChannel; ring

lemma blendChannel_one (a b : ℕ) : blendChannel a b 1 = b := by
  unfold blendChannel; ring

/-! ### Claim C4 — overlay compositor -/

/-- C4 counterexample: at a black image, a mask of class 3 (Dry Bushes,
color (139, 119, 101)) and `alpha = 1/2`, the source's
`create_overlay` (float blend + `astype(np.uint8)` truncation) yields
(69, 59, 50), while the spec's `round(image*(1-alpha) + raster*alpha)`
clamped to byte range yields (70, 60, 51); they differ. -/
theorem c4_overlay_counterexample :
    create_overlay (fun _ _ => ⟨0, 0, 0⟩) (fun _ _ => 3) (1/2) 0 0 =
      ⟨69, 59, 50⟩ ∧
    spec_overlay (fun _ _ => ⟨0, 0, 0⟩) (fun _ _ => 3) (1/2) 0 0 =
      ⟨70, 60, 51⟩ ∧
    create_overlay (fun _ _ => ⟨0, 0, 0⟩) (fun _ _ => 3) (1/2) 0 0 ≠
      spec_overlay (fun _ _ => ⟨0, 0, 0⟩) (fun _ _ => 3) (1/2) 0 0 := by
  have h1 : create_overlay (fun _ _ => ⟨0, 0, 0⟩) (fun _ _ => 3) (1/2) 0 0 =
      ⟨69, 59, 50⟩ := by
    simp only [create_overlay, colorize_mask, CLASS_COLORS, blendChannel,
      byteOfRat, RGB.mk.injEq]
    norm_num
    omega
  have h2 : spec_overlay (fun _ _ => ⟨0, 0, 0⟩) (fun _ _ => 3) (1/2) 0 0 =
      ⟨70, 60, 51⟩ := by
    simp only [spec_overlay, colorize_mask, CLASS_COLORS, blendChannel,
      specRoundByte, RGB.mk.injEq]
    norm_num [round_eq]
    omega
  exact ⟨h1, h2, by rw [h1, h2]; simp⟩

/-- C4 amended: for byte-valued inputs and `alpha ∈ [0,1]`, the Overlay
Compositor returns the per-pixel blend truncated toward zero (floored),
not rounded — no clamping is needed because the blend of byte inputs
stays in `[0, 255]`; `alpha = 0` reproduces the image exactly and
`alpha = 1` reproduces the colorized raster exactly. -/
theorem c4_overlay_truncates (image : ℕ → ℕ → RGB) (mask : Mask)
    (alpha : ℚ) (h0 : 0 ≤ alpha) (h1 : alpha ≤ 1)
    (hbytes : ∀ i j, (image i j).r ≤ 255 ∧ (image i j).g ≤ 255 ∧
      (image i j).b ≤ 255) (i j : ℕ) :
    create_overlay image mask alpha i j =
      ⟨(⌊blendChannel (image i j).r (colorize_mask mask i j).r alpha⌋).toNat,
       (⌊blendChannel (image i j).g (colorize_mask mask i j).g alpha⌋).toNat,
       (⌊blendChannel (image i j).b (colorize_mask mask i j).b alpha⌋).toNat⟩ ∧
    create_overlay image mask 0 i j = image i j ∧
    create_overlay image mask 1 i j = colorize_mask mask i j := by
  obtain ⟨hr, hg, hb⟩ := hbytes i j
  have hcb : (colorize_mask mask i j).r ≤ 255 ∧ (colorize_mask mask i j).g ≤ 255 ∧
      (colorize_mask mask i j).b ≤ 255 := colorize_byte (mask i j)
  obtain ⟨cr, cg, cb⟩ := hcb
  refine ⟨?_, ?_, ?_⟩
  · simp only [create_overlay, RGB.mk.injEq]
    exact ⟨byteOfRat_eq_floor_toNat (blend_le_255 h0 h1 hr cr),
           byteOfRat_eq_floor_toNat (blend_le_255 h0 h1 hg cg),
           byteOfRat_eq_floor_toNat (blend_le_255 h0 h1 hb cb)⟩
  · simp only [create_overlay, blendChannel_zero]
    rw [byteOfRat_natCast _ hr, byteOfRat_natCast _ hg, byteOfRat_natCast _ hb]
  · simp only [create_overlay, blendChannel_one]
    rw [byteOfRat_natCast _ cr, byteOfRat_natCast _ cg, byteOfRat_natCast _ cb]

/-- C4 witness: the amended theorem applied at a concrete image, mask
and `alpha = 1/2`. -/
theorem c4_overlay_truncates_witness :
    create_overlay (fun _ _ => ⟨10, 20, 30⟩) (fun _ _ => 0) (1/2) 0 0 =
      ⟨(⌊blendChannel 10 34 (1/2)⌋).toNat,
       (⌊blendChannel 20 139 (1/2)⌋).toNat,
       (⌊blendChannel 30 34 (1/2)⌋).toNat⟩ := by
  have h := c4_overlay_truncates (fun _ _ => ⟨10, 20, 30⟩) (fun _ _ => 0)
    (1/2) (by norm_num) (by norm_num)
    (fun _ _ => ⟨by norm_num, by norm_num, by norm_num⟩) 0 0
  exact h.1

/-! ### Claim C9 — colorizer on out-of-range class ids -/

/-- C9 counterexample: on a mask holding the out-of-range class id 10
(`= NUM_CLASSES`), `colorize_mask` silently produces an output raster —
the pixel is painted black `(0,0,0)` because no `class_mask == c` pass
matches it — and no error of any kind is raised (the embedded function
is total). -/
theorem c9_colorize_counterexample :
    colorize_mask (fun _ _ => 10) 0 0 = ⟨0, 0, 0⟩ := by decide

/-- C9 amended: an out-of-range class id is not an error condition in
the Raster Colorizer — `colorize_mask` silently paints every pixel
whose id is `≥ NUM_CLASSES` with the initial black value `(0,0,0)`
and returns a raster normally. -/
theorem c9_colorize_out_of_range (mask : Mask) (i j : ℕ)
    (hge : NUM_CLASSES ≤ mask i j) :
    colorize_mask mask i j = ⟨0, 0, 0⟩ := by
  unfold colorize_mask
  apply List.getD_eq_default
  simp only [CLASS_COLORS, List.length]
  simpa [NUM_CLASSES] using hge

/-- C9 witness: the amended theorem applied at a mask holding id 11. -/
theorem c9_colorize_out_of_range_witness :
    colorize_mask (fun _ _ => 11) 1 2 = ⟨0, 0, 0⟩ :=
  c9_colorize_out_of_range (fun _ _ => 11) 1 2 (by decide)

/-! ### Claim C5 — all-Sky traversability statistics -/

/-- C5: if every pixel of the mask is the Sky class (id 9), the ground
denominator `total_pixels - sky_pixels` is zero and
`calculate_traversability_stats` returns exactly
`{'safe': '0%', 'caution': '0%', 'blocked': '0%'}` instead of dividing
by zero. -/
theorem c5_stats_all_sky (h w : ℕ) (mask : Mask)
    (hsky : ∀ i j, i < h → j < w → mask i j = 9) :
    calculate_traversability_stats h w mask = ⟨"0%", "0%", "0%"⟩ := by
  have hcount : pixelCount h w mask 9 = h * w := by
    unfold pixelCount
    rw [Finset.filter_true_of_mem]
    · rw [Finset.card_product]
      simp
    · intro p hp
      rw [Finset.mem_product] at hp
      exact hsky p.1 p.2 (Finset.mem_range.mp hp.1) (Finset.mem_range.mp hp.2)
  unfold calculate_traversability_stats
  rw [hcount]
  simp

/-- C5 witness: the theorem applied to the all-Sky 1×1 mask. -/
theorem c5_stats_all_sky_witness :
    calculate_traversability_stats 1 1 (fun _ _ => 9) = ⟨"0%", "0%", "0%"⟩ :=
  c5_stats_all_sky 1 1 (fun _ _ => 9) (fun _ _ _ _ => rfl)

/-! ### Claim C10 — low-latency response fields -/

/-- C10: every successful `predict_sim` response carries
`segmentation_mask`, `traversability_map` and `traversability_overlay`
present and equal to the empty string, alongside the cost grid, stats,
class distribution, elapsed-time measurement, dominant class and
confidence. -/
theorem c10_sim_response_fields (stats : TravStats) (grid : List (List ℤ))
    (dist : List (String × String)) (elapsed_ms : ℚ)
    (dominant : String) (conf : ℚ) :
    (predict_sim_response stats grid dist elapsed_ms dominant conf).lookup
        "segmentation_mask" = some (JVal.s "") ∧
    (predict_sim_response stats grid dist elapsed_ms dominant conf).lookup
        "traversability_map" = some (JVal.s "") ∧
    (predict_sim_response stats grid dist elapsed_ms dominant conf).lookup
        "traversability_overlay" = some (JVal.s "") ∧
    (predict_sim_response stats grid dist elapsed_ms dominant conf).lookup
        "traversability_grid" = some (JVal.grid grid) ∧
    (predict_sim_response stats grid dist elapsed_ms dominant conf).lookup
        "traversability_stats" =
      some (JVal.smap [("safe", stats.safe), ("caution", stats.caution),
                       ("blocked", stats.blocked)]) ∧
    (predict_sim_response stats grid dist elapsed_ms dominant conf).lookup
        "class_distribution" = some (JVal.smap dist) ∧
    (predict_sim_response stats grid dist elapsed_ms dominant conf).lookup
        "inference_time_ms" = some (JVal.q elapsed_ms) ∧
    (predict_sim_response stats grid dist elapsed_ms dominant conf).lookup
        "dominant_class" = some (JVal.s dominant) ∧
    (predict_sim_response stats grid dist elapsed_ms dominant conf).lookup
        "confidence" = some (JVal.q conf) :=
  ⟨rfl, rfl, rfl, rfl, rfl, rfl, rfl, rfl, rfl⟩

/-! ### Claim C3 — input validation and error status class -/

/-- C3 counterexample: a decoded 2×2 single-channel image is *not*
rejected — `convert('RGB')` coerces it to 3 channels and the request
proceeds to the downstream components; and a zero-height image fails
with HTTP status 500, which is not in the client-error class
`[400, 500)`. -/
theorem c3_ingest_counterexample :
    ingestImage (some ⟨2, 2, 1⟩) = Except.ok ⟨2, 2, 3⟩ ∧
    ingestImage (some ⟨0, 5, 3⟩) = Except.error 500 ∧
    ¬ (400 ≤ 500 ∧ 500 < 500) := by
  refine ⟨rfl, rfl, by omega⟩

/-- C3 amended: neither pipeline validates the decoded image before the
downstream stages.  A decoded image with a channel count other than 3
is silently converted to RGB and accepted; a zero-area image (and an
undecodable upload) makes the shared ingestion raise, and the handler's
catch-all reports it with HTTP 500 — an internal-error-class status,
not a client-error-class one.  The handler holds no cross-request
state, so the failure cannot affect subsequent requests. -/
theorem c3_ingest_behavior (d : ImageData) :
    (d.height = 0 ∨ d.width = 0 → ingestImage (some d) = Except.error 500) ∧
    (d.height ≠ 0 → d.width ≠ 0 →
      ingestImage (some d) = Except.ok ⟨d.height, d.width, 3⟩) ∧
    ingestImage none = Except.error 500 := by
  refine ⟨?_, ?_, rfl⟩
  · intro hzero
    simp only [ingestImage]
    rw [if_pos hzero]
  · intro hh hw
    simp only [ingestImage]
    rw [if_neg (by simp [hh, hw])]

/-- C3 witness: the amended theorem applied to a zero-height image and
to a 4×5 single-channel image. -/
theorem c3_ingest_behavior_witness :
    ingestImage (some ⟨0, 3, 3⟩) = Except.error 500 ∧
    ingestImage (some ⟨4, 5, 1⟩) = Except.ok ⟨4, 5, 3⟩ :=
  ⟨(c3_ingest_behavior ⟨0, 3, 3⟩).1 (Or.inl rfl),
   (c3_ingest_behavior ⟨4, 5, 1⟩).2.1 (by decide) (by decide)⟩

/-! ### Claim C8 — argmax invariance under softmax -/

lemma exp_sum_pos {n : ℕ} (l : Fin (n + 1) → ℚ) :
    0 < ∑ j, Real.exp (l j) :=
  Finset.sum_pos (fun _ _ => Real.exp_pos _) Finset.univ_nonempty

/-- C8: at every pixel, an index is the first maximizer (the value
`np.argmax` returns) of the softmax-normalized probabilities iff it is
the first maximizer of the raw logits — so the low-latency pipeline's
skip-softmax ClassMask coincides pixelwise with the ClassMask softmax
followed by argmax would produce from the same logits. -/
theorem c8_argmax_softmax_invariant {n : ℕ} (l : Fin (n + 1) → ℚ)
    (i : Fin (n + 1)) :
    isFirstArgmax (softmax l) i ↔ isFirstArgmax (fun j => ((l j : ℚ) : ℝ)) i := by
  have hS : 0 < ∑ j, Real.exp (l j) := exp_sum_pos l
  have key : ∀ a b : Fin (n + 1),
      softmax l a ≤ softmax l b ↔ ((l a : ℝ)) ≤ ((l b : ℝ)) := by
    intro a b
    unfold softmax
    rw [div_le_div_iff_of_pos_right hS, Real.exp_le_exp]
  unfold isFirstArgmax
  constructor
  · rintro ⟨h1, h2⟩
    exact ⟨fun j => (key j i).mp (h1 j), fun j hj => h2 j ((key i j).mpr hj)⟩
  · rintro ⟨h1, h2⟩
    exact ⟨fun j => (key j i).mpr (h1 j), fun j hj => h2 j ((key i j).mp hj)⟩

/-! ### Grid aggregator helper lemmas -/

lemma srcIdx_lt {src dst j : ℕ} (hsrc : 0 < src) (hj : j < dst) :
    srcIdx src dst j < src := by
  unfold srcIdx
  apply Nat.div_lt_of_lt_mul
  have h2 : 2 * j + 1 < 2 * dst := by omega
  calc (2 * j + 1) * src < (2 * dst) * src :=
        Nat.mul_lt_mul_of_lt_of_le h2 (le_refl src) hsrc
    _ = 2 * dst * src := rfl

lemma rneShift_le (n s : ℕ) : rneShift n s ≤ n / 2 ^ s + 1 := by
  unfold rneShift
  dsimp only
  split
  · rename_i hs
    subst hs
    simp
  · split
    · omega
    · split
      · omega
      · split <;> omega

lemma groundStart_lt {h : ℕ} (hh : 0 < h) : groundStart h < h := by
  unfold groundStart
  dsimp only
  split
  · exact hh
  · rename_i hn
    have hn' : 2 ^ 53 ≤ h * M35 := by omega
    have h2s : 2 ^ (Nat.log2 (h * M35) + 1 - 53) ≤ h * M35 := by
      have hn0 : h * M35 ≠ 0 := by positivity
      have hlog : 2 ^ Nat.log2 (h * M35) ≤ h * M35 := Nat.log2_self_le hn0
      have hsle : Nat.log2 (h * M35) + 1 - 53 ≤ Nat.log2 (h * M35) := by omega
      calc 2 ^ (Nat.log2 (h * M35) + 1 - 53) ≤ 2 ^ Nat.log2 (h * M35) :=
            Nat.pow_le_pow_right (by norm_num) hsle
        _ ≤ h * M35 := hlog
    apply Nat.div_lt_of_lt_mul
    have h1 := rneShift_le (h * M35) (Nat.log2 (h * M35) + 1 - 53)
    have hmul : rneShift (h * M35) (Nat.log2 (h * M35) + 1 - 53) *
        2 ^ (Nat.log2 (h * M35) + 1 - 53) ≤ 2 * (h * M35) := by
      calc rneShift (h * M35) (Nat.log2 (h * M35) + 1 - 53) *
            2 ^ (Nat.log2 (h * M35) + 1 - 53)
          ≤ (h * M35 / 2 ^ (Nat.log2 (h * M35) + 1 - 53) + 1) *
            2 ^ (Nat.log2 (h * M35) + 1 - 53) :=
            Nat.mul_le_mul_right _ h1
        _ = (h * M35 / 2 ^ (Nat.log2 (h * M35) + 1 - 53)) *
            2 ^ (Nat.log2 (h * M35) + 1 - 53) +
            2 ^ (Nat.log2 (h * M35) + 1 - 53) := by ring
        _ ≤ h * M35 + 2 ^ (Nat.log2 (h * M35) + 1 - 53) := by
            have := Nat.div_mul_le_self (h * M35)
              (2 ^ (Nat.log2 (h * M35) + 1 - 53))
            omega
        _ ≤ 2 * (h * M35) := by omega
    calc rneShift (h * M35) (Nat.log2 (h * M35) + 1 - 53) *
          2 ^ (Nat.log2 (h * M35) + 1 - 53) ≤ 2 * (h * M35) := hmul
      _ = (2 * M35) * h := by ring
      _ < 2 ^ 53 * h := by
          apply Nat.mul_lt_mul_of_lt_of_le _ (le_refl h) hh
          norm_num [M35]

lemma cost_mem_of_lt {cls : ℕ} (hcls : cls < 10) :
    cellCost (travCost cls) = 0 ∨ cellCost (travCost cls) = 5 ∨
    cellCost (travCost cls) = 10 := by
  interval_cases cls <;> decide

/-! ### Claim C2 — cost grid shape, value range and sky override -/

/-- C2: for a mask with class ids in `[0, NUM_CLASSES)`, the cost grid
has exactly `grid_rows` rows of `grid_cols` entries each regardless of
the mask's aspect ratio, every entry is 0, 5 or 10, and any cell whose
reduced class is Sky (id 9) is overridden to cost 0 after the LUT
lookup. -/
theorem c2_cost_grid (h w rows cols : ℕ) (mask : Mask)
    (hh : 0 < h) (hw : 0 < w)
    (hmask : ∀ i j, i < h → j < w → mask i j < NUM_CLASSES) :
    (create_traversability_grid mask h w cols rows).length = rows ∧
    (∀ row ∈ create_traversability_grid mask h w cols rows,
      row.length = cols) ∧
    (∀ row ∈ create_traversability_grid mask h w cols rows, ∀ v ∈ row,
      v = 0 ∨ v = 5 ∨ v = 10) ∧
    (∀ r c, r < rows → c < cols → gridClass mask h w rows cols r c = 9 →
      gridEntry mask h w rows cols r c = 0) := by
  have hclass : ∀ r c, r < rows → c < cols →
      gridClass mask h w rows cols r c < NUM_CLASSES := by
    intro r c hr hc
    unfold gridClass
    apply hmask
    · have h1 : srcIdx (h - groundStart h) rows r < h - groundStart h :=
        srcIdx_lt (by have := groundStart_lt hh; omega) hr
      omega
    · exact srcIdx_lt hw hc
  refine ⟨by simp [create_traversability_grid], ?_, ?_, ?_⟩
  · intro row hrow
    unfold create_traversability_grid at hrow
    rw [List.mem_map] at hrow
    obtain ⟨r, _, rfl⟩ := hrow
    simp
  · intro row hrow v hv
    unfold create_traversability_grid at hrow
    rw [List.mem_map] at hrow
    obtain ⟨r, hrmem, rfl⟩ := hrow
    rw [List.mem_map] at hv
    obtain ⟨c, hcmem, rfl⟩ := hv
    rw [List.mem_range] at hrmem hcmem
    exact cost_mem_of_lt (hclass r c hrmem hcmem)
  · intro r c _ _ h9
    unfold gridEntry
    rw [h9]
    decide

/-- C2 witness: the theorem applied to the all-Sky 1×1 mask with the
reference 8×12 grid. -/
theorem c2_cost_grid_witness :
    (create_traversability_grid (fun _ _ => 9) 1 1 12 8).length = 8 ∧
    (∀ row ∈ create_traversability_grid (fun _ _ => 9) 1 1 12 8,
      row.length = 12) ∧
    (∀ row ∈ create_traversability_grid (fun _ _ => 9) 1 1 12 8, ∀ v ∈ row,
      v = 0 ∨ v = 5 ∨ v = 10) ∧
    (∀ r c, r < 8 → c < 12 → gridClass (fun _ _ => 9) 1 1 8 12 r c = 9 →
      gridEntry (fun _ _ => 9) 1 1 8 12 r c = 0) :=
  c2_cost_grid 1 1 8 12 (fun _ _ => 9) (by decide) (by decide)
    (fun _ _ _ _ => by norm_num [NUM_CLASSES])

/-! ### Claim C1 — which representative pixel nearest-neighbour picks -/

lemma srcIdx_eq_specCenterIdx (src dst j : ℕ) :
    srcIdx src dst j = specCenterIdx src dst j := by
  rcases Nat.eq_zero_or_pos dst with hd | hd
  · subst hd
    unfold srcIdx specCenterIdx
    simp
  · unfold srcIdx specCenterIdx
    have hdq : ((dst : ℚ)) ≠ 0 := Nat.cast_ne_zero.mpr (by omega)
    have h2d : ((2 * dst : ℕ) : ℚ) ≠ 0 := Nat.cast_ne_zero.mpr (by omega)
    have heq : (((j : ℚ) + 1/2) * src) / dst =
        (((2 * j + 1) * src : ℕ) : ℚ) / ((2 * dst : ℕ) : ℚ) := by
      rw [div_eq_div_iff hdq h2d]
      push_cast
      ring
    rw [heq, Rat.floor_natCast_div_natCast, ← Int.natCast_div, Int.toNat_natCast]

/-- C1 counterexample: for the 1×3 ground row `[5, 7, 2]` reduced to a
1×2 grid, PIL nearest-neighbour reduction gives cell (0,1) the class of
source column `⌊1.5 · 3/2⌋ = 2`, namely class 2, while the
top-left-aligned representative of proportional binning (cell width
`3 / 2 = 1`, cell start `1·1 = 1`) gives class 7 — the two disagree. -/
theorem c1_counterexample :
    gridClass (fun _ j => [5, 7, 2].getD j 0) 1 3 1 2 0 1 = 2 ∧
    specTopLeftClass (fun _ j => [5, 7, 2].getD j 0) 1 3 1 2 0 1 = 7 ∧
    gridClass (fun _ j => [5, 7, 2].getD j 0) 1 3 1 2 0 1 ≠
      specTopLeftClass (fun _ j => [5, 7, 2].getD j 0) 1 3 1 2 0 1 := by
  refine ⟨by decide, by decide, by decide⟩

/-- C1 amended: the nearest-neighbour area reduction of the retained
ground sub-raster assigns each cell the class of its *center-aligned*
representative pixel, source index `⌊(k + 1/2) · src / dst⌋` per axis —
not the top-left pixel of the proportional bins. -/
theorem c1_grid_center_aligned (mask : Mask) (h w rows cols r c : ℕ) :
    gridClass mask h w rows cols r c = specCenterClass mask h w rows cols r c := by
  simp only [gridClass, specCenterClass, srcIdx_eq_specCenterIdx]

/-! ### Claim C7 — Sky band inside the retained ground region -/

lemma div_mul_pred {B P : ℕ} (hB : 0 < B) (hP : 0 < P) :
    (B * P - 1) / P = B - 1 := by
  have h1 : B * P - 1 = P * (B - 1) + (P - 1) := by
    rw [Nat.mul_sub_one]
    have hle : P ≤ B * P := Nat.le_mul_of_pos_left P hB
    have hc : P * B = B * P := Nat.mul_comm P B
    omega
  rw [h1, Nat.mul_add_div hP, Nat.div_eq_of_lt (by omega)]
  omega

/-- For a height that is an exact multiple of 20 (and realistically
bounded), the float64 truncation `int(h * 0.35)` never exceeds the
exact 35 % mark `7m` — the retained ground region starts at or before
the 35 % row, i.e. all rows from the 35 % mark downward are kept. -/
lemma groundStart_le {m : ℕ} (hm : 0 < m) (hmle : m ≤ 2 ^ 50) :
    groundStart (20 * m) ≤ 7 * m := by
  unfold groundStart
  dsimp only
  split
  · exact Nat.zero_le _
  · rename_i hn
    have hA : 20 * m * M35 < 7 * m * 2 ^ 53 := by
      have h20 : 20 * M35 < 7 * 2 ^ 53 := by norm_num [M35]
      calc 20 * m * M35 = m * (20 * M35) := by ring
        _ < m * (7 * 2 ^ 53) := Nat.mul_lt_mul_of_le_of_lt (le_refl m) h20 hm
        _ = 7 * m * 2 ^ 53 := by ring
    have hn0 : 20 * m * M35 ≠ 0 :=
      Nat.mul_ne_zero (Nat.mul_ne_zero (by norm_num) (by omega))
        (by norm_num [M35])
    have hs53 : Nat.log2 (20 * m * M35) + 1 - 53 ≤ 53 := by
      have hbig : 20 * m * M35 < 2 ^ 106 := by
        have h1 : 20 * M35 < 2 ^ 56 := by norm_num [M35]
        calc 20 * m * M35 = m * (20 * M35) := by ring
          _ ≤ 2 ^ 50 * (20 * M35) := Nat.mul_le_mul_right _ hmle
          _ < 2 ^ 50 * 2 ^ 56 :=
              Nat.mul_lt_mul_of_le_of_lt (le_refl _) h1 (by positivity)
          _ = 2 ^ 106 := by norm_num
      have := (Nat.log2_lt hn0).mpr hbig
      omega
    set s := Nat.log2 (20 * m * M35) + 1 - 53 with hs
    set X := 7 * m * 2 ^ (53 - s) with hX
    have hXpos : 0 < X := by
      rw [hX]
      exact Nat.mul_pos (Nat.mul_pos (by norm_num) hm) (pow_pos (by norm_num) _)
    have hdvd : 7 * m * 2 ^ 53 = X * 2 ^ s := by
      rw [hX, mul_assoc (7 * m), ← pow_add, Nat.sub_add_cancel hs53]
    have hq : 20 * m * M35 / 2 ^ s ≤ X - 1 := by
      have h1 : 20 * m * M35 ≤ 7 * m * 2 ^ 53 - 1 := by
        have h2 : 0 < 7 * m * 2 ^ 53 :=
          Nat.mul_pos (Nat.mul_pos (by norm_num) hm) (pow_pos (by norm_num) _)
        omega
      have h2 : 20 * m * M35 / 2 ^ s ≤ (7 * m * 2 ^ 53 - 1) / 2 ^ s :=
        Nat.div_le_div_right h1
      rw [hdvd] at h2
      rwa [div_mul_pred hXpos (by positivity)] at h2
    have hr : rneShift (20 * m * M35) s ≤ X := by
      have h1 := rneShift_le (20 * m * M35) s
      omega
    have hfinal : rneShift (20 * m * M35) s * 2 ^ s ≤ 7 * m * 2 ^ 53 := by
      calc rneShift (20 * m * M35) s * 2 ^ s
          ≤ X * 2 ^ s := Nat.mul_le_mul_right _ hr
        _ = 7 * m * 2 ^ 53 := hdvd.symm
    calc rneShift (20 * m * M35) s * 2 ^ s / 2 ^ 53
        ≤ 7 * m * 2 ^ 53 / 2 ^ 53 := Nat.div_le_div_right hfinal
      _ = 7 * m := Nat.mul_div_cancel _ (by positivity)

/-- C7: for the scenario mask whose top 40 % of rows (heights `20m`)
are Sky and bottom 60 % a NoGo class, with the reference 8×12 grid:
the ground region starts at or before the exact 35 % mark (all rows
from the 35 % mark downward are retained), the first retained row still
holds Sky (a Sky band remains in the grid input), the top-left grid
cell reduces to the Sky class yet is assigned cost 0, and every cell
whose reduced class is Sky maps to cost 0 under the override rule. -/
theorem c7_sky_band_grid (m w : ℕ) (hm : 0 < m) (hmle : m ≤ 2 ^ 50)
    (_hw : 0 < w) :
    groundStart (20 * m) ≤ 7 * m ∧
    skyNoGoMask (20 * m) (groundStart (20 * m)) 0 = 9 ∧
    gridClass (skyNoGoMask (20 * m)) (20 * m) w 8 12 0 0 = 9 ∧
    gridEntry (skyNoGoMask (20 * m)) (20 * m) w 8 12 0 0 = 0 ∧
    (∀ r c, gridClass (skyNoGoMask (20 * m)) (20 * m) w 8 12 r c = 9 →
      gridEntry (skyNoGoMask (20 * m)) (20 * m) w 8 12 r c = 0) := by
  have hgs := groundStart_le hm hmle
  have hband : groundStart (20 * m) < 2 * (20 * m) / 5 := by omega
  have hcell : gridClass (skyNoGoMask (20 * m)) (20 * m) w 8 12 0 0 = 9 := by
    unfold gridClass skyNoGoMask srcIdx
    rw [if_pos]
    omega
  refine ⟨hgs, ?_, hcell, ?_, ?_⟩
  · unfold skyNoGoMask
    rw [if_pos hband]
  · unfold gridEntry
    rw [hcell]
    decide
  · intro r c h9
    unfold gridEntry
    rw [h9]
    decide

/-- C7 witness: the theorem applied at `m = 1` (a 20-row mask) and
`w = 1`. -/
theorem c7_sky_band_grid_witness :
    groundStart 20 ≤ 7 ∧
    skyNoGoMask 20 (groundStart 20) 0 = 9 ∧
    gridClass (skyNoGoMask 20) 20 1 8 12 0 0 = 9 ∧
    gridEntry (skyNoGoMask 20) 20 1 8 12 0 0 = 0 ∧
    (∀ r c, gridClass (skyNoGoMask 20) 20 1 8 12 r c = 9 →
      gridEntry (skyNoGoMask 20) 20 1 8 12 r c = 0) := by
  have h := c7_sky_band_grid 1 1 (by norm_num) (by norm_num) (by norm_num)
  simpa using h

/-! ### Claim C6 — class-distribution helper lemmas -/

lemma rhe_le_add_half (q : ℚ) : (rhe q : ℚ) ≤ q + 1/2 := by
  unfold rhe
  dsimp only
  have hfl : (⌊q⌋ : ℚ) ≤ q := Int.floor_le q
  split
  · linarith
  · rename_i h1
    split
    · rename_i h2
      push_cast
      linarith
    · rename_i h2
      have htie : q - (⌊q⌋ : ℚ) = 1/2 := by linarith
      split
      · linarith
      · push_cast
        linarith

lemma rhe_natCast_div (n d : ℕ) (hd : 0 < d) :
    rhe ((n : ℚ) / (d : ℚ)) =
      if 2 * (n % d) < d then ((n / d : ℕ) : ℤ)
      else if d < 2 * (n % d) then ((n / d : ℕ) : ℤ) + 1
      else if (n / d) % 2 = 0 then ((n / d : ℕ) : ℤ)
      else ((n / d : ℕ) : ℤ) + 1 := by
  have hdq : (0 : ℚ) < (d : ℚ) := by exact_mod_cast hd
  have hf : ⌊(n : ℚ) / (d : ℚ)⌋ = ((n / d : ℕ) : ℤ) := by
    rw [Rat.floor_natCast_div_natCast, ← Int.natCast_div]
  have hr : (n : ℚ) / (d : ℚ) - (((n / d : ℕ) : ℤ) : ℚ) =
      ((n % d : ℕ) : ℚ) / (d : ℚ) := by
    have hcast : (((n / d : ℕ) : ℤ) : ℚ) = ((n / d : ℕ) : ℚ) := by
      push_cast
      rfl
    have hn : (n : ℚ) = ((d * (n / d) + n % d : ℕ) : ℚ) := by
      rw [Nat.div_add_mod]
    rw [hcast, hn]
    push_cast
    field_simp
  have c1 : ((n % d : ℕ) : ℚ) / (d : ℚ) < 1/2 ↔ 2 * (n % d) < d := by
    rw [div_lt_div_iff₀ hdq (by norm_num : (0 : ℚ) < 2)]
    rw [one_mul, mul_comm]
    norm_cast
  have c2 : (1 : ℚ)/2 < ((n % d : ℕ) : ℚ) / (d : ℚ) ↔ d < 2 * (n % d) := by
    rw [div_lt_div_iff₀ (by norm_num : (0 : ℚ) < 2) hdq]
    rw [one_mul, mul_comm]
    norm_cast
  have c3 : ((n / d : ℕ) : ℤ) % 2 = 0 ↔ (n / d) % 2 = 0 := by omega
  unfold rhe
  dsimp only
  rw [hf, hr]
  simp only [c1, c2, c3]

lemma sum_pixelCount_le (h w : ℕ) (mask : Mask) :
    ∑ c ∈ Finset.range NUM_CLASSES, pixelCount h w mask c ≤ h * w := by
  unfold pixelCount
  rw [← Finset.card_biUnion]
  · calc ((Finset.range NUM_CLASSES).biUnion fun c =>
          ((Finset.range h) ×ˢ (Finset.range w)).filter
            (fun p => mask p.1 p.2 = c)).card
        ≤ ((Finset.range h) ×ˢ (Finset.range w)).card := by
          apply Finset.card_le_card
          intro p hp
          simp only [Finset.mem_biUnion] at hp
          obtain ⟨c, _, hpc⟩ := hp
          exact Finset.mem_of_mem_filter p hpc
      _ = h * w := by rw [Finset.card_product, Finset.card_range,
          Finset.card_range]
  · intro x _ y _ hxy
    simp only [Finset.disjoint_left, Finset.mem_filter]
    rintro p ⟨_, hpx⟩ ⟨_, hpy⟩
    exact hxy (hpx ▸ hpy ▸ rfl)

lemma distTenths_sum_eq (h w : ℕ) (mask : Mask) (n : ℕ) :
    (((List.range n).filterMap (fun c =>
        let cnt := pixelCount h w mask c
        if 0 < cnt then
          some (CLASS_NAMES.getD c "",
                rhe ((1000 * cnt : ℚ) / (h * w)))
        else none)).map Prod.snd).sum =
    ∑ c ∈ Finset.range n,
      (if 0 < pixelCount h w mask c then
        rhe ((1000 * pixelCount h w mask c : ℚ) / (h * w)) else 0) := by
  induction n with
  | zero => simp
  | succ k ih =>
    rw [List.range_succ, List.filterMap_append, List.map_append,
        List.sum_append, Finset.sum_range_succ, ih]
    simp only [List.filterMap_cons, List.filterMap_nil]
    by_cases hk : 0 < pixelCount h w mask k
    · simp [hk]
    · simp [hk]

lemma names_inj {a b : ℕ} (ha : a < 10) (hb : b < 10)
    (hab : CLASS_NAMES.getD a "" = CLASS_NAMES.getD b "") : a = b := by
  interval_cases a <;> interval_cases b <;>
    first
      | rfl
      | exact absurd hab (by decide)

/-- C6 counterexample: the 1×7 mask holding one pixel each of classes
0–6 yields seven reported entries of `1/7 = 14.285…% → "14.3%"`; the
reported percentages sum to `100.1% > 100.0%` (1001 tenths of a
percent), refuting the “sum to at most 100.0” part of the claim. -/
theorem c6_distribution_counterexample :
    ((classDistTenths 1 7 (fun _ j => j)).map Prod.snd).sum = 1001 ∧
    (1000 : ℤ) < 1001 := by
  refine ⟨?_, by norm_num⟩
  have h143 : rhe ((1000 : ℚ) / 7) = 143 := by
    have h := rhe_natCast_div 1000 7 (by norm_num)
    norm_num at h
    exact h
  have h0 : pixelCount 1 7 (fun _ j => j) 0 = 1 := by decide
  have h1 : pixelCount 1 7 (fun _ j => j) 1 = 1 := by decide
  have h2 : pixelCount 1 7 (fun _ j => j) 2 = 1 := by decide
  have h3 : pixelCount 1 7 (fun _ j => j) 3 = 1 := by decide
  have h4 : pixelCount 1 7 (fun _ j => j) 4 = 1 := by decide
  have h5 : pixelCount 1 7 (fun _ j => j) 5 = 1 := by decide
  have h6 : pixelCount 1 7 (fun _ j => j) 6 = 1 := by decide
  have h7 : pixelCount 1 7 (fun _ j => j) 7 = 0 := by decide
  have h8 : pixelCount 1 7 (fun _ j => j) 8 = 0 := by decide
  have h9 : pixelCount 1 7 (fun _ j => j) 9 = 0 := by decide
  have hrange : List.range NUM_CLASSES = [0, 1, 2, 3, 4, 5, 6, 7, 8, 9] := by
    decide
  unfold classDistTenths
  rw [hrange]
  simp only [List.filterMap_cons, List.filterMap_nil, h0, h1, h2, h3, h4,
    h5, h6, h7, h8, h9]
  norm_num [h143]

/-- C6 amended: the class-distribution map of either pipeline contains
an entry for a class iff that class's pixel count is positive, and each
entry is `count/total` as a percentage rounded to one decimal place (by
construction of `classDistTenths`); however the reported percentages
can exceed 100.0 in sum — rounding adds at most 0.05 percentage points
per reported entry, so the sum is bounded by 100.5 % (1005 tenths), not
by 100.0 %. -/
theorem c6_class_distribution (h w : ℕ) (mask : Mask)
    (hh : 0 < h) (hw : 0 < w) :
    (∀ c, c < NUM_CLASSES →
      ((∃ p ∈ class_distribution h w mask, p.1 = CLASS_NAMES.getD c "") ↔
        0 < pixelCount h w mask c)) ∧
    ((classDistTenths h w mask).map Prod.snd).sum ≤ 1005 := by
  constructor
  · intro c hc
    constructor
    · rintro ⟨p, hp, hname⟩
      unfold class_distribution at hp
      rw [List.mem_map] at hp
      obtain ⟨q, hq, rfl⟩ := hp
      unfold classDistTenths at hq
      rw [List.mem_filterMap] at hq
      obtain ⟨c', hc', hq'⟩ := hq
      rw [List.mem_range] at hc'
      by_cases hpos : 0 < pixelCount h w mask c'
      · rw [if_pos hpos] at hq'
        cases hq'
        have hcc : c' = c := names_inj hc' hc hname
        rwa [← hcc]
      · rw [if_neg hpos] at hq'
        exact absurd hq' (by simp)
    · intro hpos
      refine ⟨(CLASS_NAMES.getD c "",
        fmtTenths (rhe ((1000 * pixelCount h w mask c : ℚ) / (h * w)))),
        ?_, rfl⟩
      unfold class_distribution
      rw [List.mem_map]
      refine ⟨(CLASS_NAMES.getD c "",
        rhe ((1000 * pixelCount h w mask c : ℚ) / (h * w))), ?_, rfl⟩
      unfold classDistTenths
      rw [List.mem_filterMap]
      exact ⟨c, List.mem_range.mpr hc, by rw [if_pos hpos]⟩
  · have heq := distTenths_sum_eq h w mask NUM_CLASSES
    unfold classDistTenths
    rw [heq]
    have hTq : (0 : ℚ) < (h : ℚ) * (w : ℚ) := by
      have h1 : (0 : ℚ) < (h : ℚ) := by exact_mod_cast hh
      have h2 : (0 : ℚ) < (w : ℚ) := by exact_mod_cast hw
      exact mul_pos h1 h2
    have hcast : (((∑ c ∈ Finset.range NUM_CLASSES,
        (if 0 < pixelCount h w mask c then
          rhe ((1000 * pixelCount h w mask c : ℚ) / (h * w)) else 0)) : ℤ) : ℚ) ≤
          ((1005 : ℤ) : ℚ) → _ := Int.cast_le.mp
    apply hcast
    rw [Int.cast_sum]
    have h1005 : ((1005 : ℤ) : ℚ) = 1005 := by norm_num
    rw [h1005]
    have key : ∀ c ∈ Finset.range NUM_CLASSES,
        ((if 0 < pixelCount h w mask c then
          rhe ((1000 * pixelCount h w mask c : ℚ) / ((h : ℚ) * w)) else 0 : ℤ) : ℚ) ≤
        (1000 * pixelCount h w mask c : ℚ) / ((h : ℚ) * w) + 1/2 := by
      intro c _
      by_cases hpos : 0 < pixelCount h w mask c
      · rw [if_pos hpos]
        exact rhe_le_add_half _
      · rw [if_neg hpos]
        have hz : pixelCount h w mask c = 0 := by omega
        rw [hz]
        push_cast
        rw [mul_zero, zero_div]
        norm_num
    calc ∑ c ∈ Finset.range NUM_CLASSES,
          (((if 0 < pixelCount h w mask c then
            rhe ((1000 * pixelCount h w mask c : ℚ) / ((h : ℚ) * w)) else 0) : ℤ) : ℚ)
        ≤ ∑ c ∈ Finset.range NUM_CLASSES,
          ((1000 * pixelCount h w mask c : ℚ) / ((h : ℚ) * w) + 1/2) :=
          Finset.sum_le_sum key
      _ = (∑ c ∈ Finset.range NUM_CLASSES,
            (1000 * pixelCount h w mask c : ℚ)) / ((h : ℚ) * w) +
            (NUM_CLASSES : ℚ) * (1/2) := by
          rw [Finset.sum_add_distrib, Finset.sum_const, Finset.card_range,
            ← Finset.sum_div, nsmul_eq_mul]
      _ ≤ 1000 + (NUM_CLASSES : ℚ) * (1/2) := by
          have hsum : (∑ c ∈ Finset.range NUM_CLASSES,
              (1000 * pixelCount h w mask c : ℚ)) =
              1000 * ((∑ c ∈ Finset.range NUM_CLASSES,
                pixelCount h w mask c : ℕ) : ℚ) := by
            push_cast
            rw [Finset.mul_sum]
          have hle : ((∑ c ∈ Finset.range NUM_CLASSES,
              pixelCount h w mask c : ℕ) : ℚ) ≤ (h : ℚ) * w := by
            have := sum_pixelCount_le h w mask
            exact_mod_cast this
          have hdivle : (∑ c ∈ Finset.range NUM_CLASSES,
              (1000 * pixelCount h w mask c : ℚ)) / ((h : ℚ) * w) ≤ 1000 := by
            rw [hsum, div_le_iff₀ hTq]
            nlinarith
          linarith
      _ = 1005 := by norm_num [NUM_CLASSES]

/-- C6 witness: the amended theorem applied to the 1×1 mask of class 0. -/
theorem c6_class_distribution_witness :
    (∀ c, c < NUM_CLASSES →
      ((∃ p ∈ class_distribution 1 1 (fun _ _ => 0),
          p.1 = CLASS_NAMES.getD c "") ↔
        0 < pixelCount 1 1 (fun _ _ => 0) c)) ∧
    ((classDistTenths 1 1 (fun _ _ => 0)).map Prod.snd).sum ≤ 1005 :=
  c6_class_distribution 1 1 (fun _ _ => 0) (by norm_num) (by norm_num)

end DuneNet
